import Mathlib

/-!
Verification of the discount-bucketing and aggregation pipeline of
`src/Streamlit/optimaldiscount_dashboard.py`.

The pipeline is shallowly embedded:
* a CSV cell is `Cell`: missing (pandas NaN), a numeric value (modelled as a
  rational), or a non-numeric string;
* `prepare` embeds `load_and_prepare_data` (lines 7-21 of the source), minus
  the CSV reading itself: coercion of `discount` and `profit_margin` with
  `pd.to_numeric(errors='coerce')`, the ×100 rescaling of `profit_margin`,
  `dropna(subset=['discount','profit','sales'])`, and the `pd.cut` bucketing
  whose NaN category becomes the literal string "nan" under `.astype(str)`;
* `perform_discount_analysis` embeds the groupby aggregation (lines 25-36):
  pandas `groupby` sorts the (string) keys, sums `sales` and `profit`,
  takes the skipna mean of `profit_margin` (NaN, i.e. `none`, for an
  all-missing group), and derives the profit-to-sales ratio, whose
  non-finite value (inf/NaN) on a zero-sales group is modelled as `none`;
* `idxmaxKeys` embeds `Series.idxmax` (line 91): the first index, in the
  series' order, whose non-NaN value is maximal; `none` models the
  `ValueError` pandas raises on an empty or all-NaN series.

Numeric cells are rationals: the source works in float64, and the spec's
data model and worked examples are stated in exact arithmetic.
-/

namespace OptimalDiscount

/-- A cell of the uploaded table: missing (NaN after `read_csv`), a numeric
value, or a non-numeric string (pandas keeps such rows as object dtype). -/
inductive Cell where
  | missing : Cell
  | num : ℚ → Cell
  | str : String → Cell
deriving DecidableEq

/-- `pd.to_numeric(·, errors='coerce')` on one cell: numbers pass through,
missing values and non-numeric strings become NaN (`none`). -/
def toNumericCoerce : Cell → Option ℚ
  | .num q => some q
  | _ => none

/-- A raw input row restricted to the four selected columns
(source line 11). -/
structure RawRow where
  discount : Cell
  profit : Cell
  sales : Cell
  profit_margin : Cell
deriving DecidableEq

/-- A row after the coercion steps of source lines 12-13: `discount` and
`profit_margin` coerced (the latter rescaled ×100), `profit` and `sales`
untouched. -/
structure CoercedRow where
  discount : Option ℚ
  profit : Cell
  sales : Cell
  profit_margin : Option ℚ
deriving DecidableEq

/-- Source lines 12-13: coerce `discount`; coerce `profit_margin` and
multiply by 100 (NaN stays NaN). -/
def coerceRow (r : RawRow) : CoercedRow :=
  { discount := toNumericCoerce r.discount
    profit := r.profit
    sales := r.sales
    profit_margin := (toNumericCoerce r.profit_margin).map (· * 100) }

/-- Source line 14, `dropna(subset=['discount','profit','sales'])`: a row
survives iff none of those three cells is NaN. A non-numeric string in
`profit` or `sales` is not NaN, so it does not drop the row. -/
def dropnaKeep (c : CoercedRow) : Bool :=
  c.discount.isSome && !(c.profit == Cell.missing) && !(c.sales == Cell.missing)

/-- Source lines 17-19, `pd.cut(data['discount'], bins=[0,0.1,0.2,0.3,0.4,1.0],
labels=[...]).astype(str)`: right-closed bins, values outside every bin get
the NaN category, which `.astype(str)` turns into the literal string "nan". -/
def discountRange (d : ℚ) : String :=
  if 0 < d ∧ d ≤ 1/10 then "0-10%"
  else if 1/10 < d ∧ d ≤ 2/10 then "10-20%"
  else if 2/10 < d ∧ d ≤ 3/10 then "20-30%"
  else if 3/10 < d ∧ d ≤ 4/10 then "30-40%"
  else if 4/10 < d ∧ d ≤ 1 then "40%+"
  else "nan"

/-- A prepared row: the surviving cells plus the derived `discount_range`
column (source line 19). `discount` is numeric here because `dropna` already
removed the rows where its coercion failed. -/
structure PreparedRow where
  discount : ℚ
  profit : Cell
  sales : Cell
  profit_margin : Option ℚ
  discount_range : String
deriving DecidableEq

/-- Attach the `discount_range` column to a surviving row. -/
def addRange (c : CoercedRow) : Option PreparedRow :=
  c.discount.map fun d =>
    { discount := d
      profit := c.profit
      sales := c.sales
      profit_margin := c.profit_margin
      discount_range := discountRange d }

/-- `load_and_prepare_data` (source lines 7-21) after `read_csv` and the
column selection: coerce, drop NaN rows, bucket. -/
def prepare (raws : List RawRow) : List PreparedRow :=
  ((raws.map coerceRow).filter dropnaKeep).filterMap addRange

/-- A prepared row whose `profit` and `sales` are numeric, the shape the
aggregation's `sum` works on (the spec's Prepared Record data model). -/
structure NRow where
  discount_range : String
  profit : ℚ
  sales : ℚ
  profit_margin : Option ℚ
deriving DecidableEq

/-- View a prepared row as a numeric row when `profit` and `sales` are
numeric cells. -/
def toNumRow (p : PreparedRow) : Option NRow :=
  match p.profit, p.sales with
  | .num pr, .num sa =>
      some { discount_range := p.discount_range
             profit := pr
             sales := sa
             profit_margin := p.profit_margin }
  | _, _ => none

/-- Lexicographic comparison of character lists by code point, the order
Python uses to compare strings (and so the order pandas sorts group keys
in): a prefix precedes its extensions, otherwise the first differing
character decides. -/
def strLeAux : List Char → List Char → Bool
  | [], _ => true
  | _ :: _, [] => false
  | a :: as, b :: bs =>
    if a.toNat < b.toNat then true
    else if b.toNat < a.toNat then false
    else strLeAux as bs

/-- Python's `<=` on strings: lexicographic by code point. -/
def strLe (a b : String) : Bool := strLeAux a.data b.data

/-- The group keys in the order pandas `groupby(sort=True)` iterates them:
the distinct `discount_range` strings in ascending lexicographic order. -/
def sortedKeys (rows : List NRow) : List String :=
  ((rows.map NRow.discount_range).dedup).insertionSort fun a b => strLe a b = true

/-- The rows of one group. -/
def group (rows : List NRow) (k : String) : List NRow :=
  rows.filter fun r => r.discount_range == k

/-- The non-missing `profit_margin` values of a group; pandas `mean`
averages exactly these (skipna). -/
def groupMargins (rows : List NRow) (k : String) : List ℚ :=
  (group rows k).filterMap NRow.profit_margin

/-- One row of the aggregate table (source lines 27-34). `none` in
`avg_profit_margin` models NaN (all-missing group); `none` in
`profit_to_sales_ratio` models the non-finite float (inf or NaN) that
division by a zero `total_sales` produces. -/
structure AggRow where
  discount_range : String
  total_sales : ℚ
  total_profit : ℚ
  avg_profit_margin : Option ℚ
  profit_to_sales_ratio : Option ℚ
deriving DecidableEq

/-- The aggregate row of one group: sum of `sales`, sum of `profit`,
skipna mean of `profit_margin`, and the derived ratio
`total_profit / total_sales * 100` (source lines 27-34). -/
def mkAggRow (rows : List NRow) (k : String) : AggRow :=
  { discount_range := k
    total_sales := ((group rows k).map NRow.sales).sum
    total_profit := ((group rows k).map NRow.profit).sum
    avg_profit_margin :=
      if groupMargins rows k = [] then none
      else some ((groupMargins rows k).sum / (groupMargins rows k).length)
    profit_to_sales_ratio :=
      if ((group rows k).map NRow.sales).sum = 0 then none
      else some (((group rows k).map NRow.profit).sum /
                 ((group rows k).map NRow.sales).sum * 100) }

/-- `perform_discount_analysis` (source lines 25-36): one aggregate row per
distinct `discount_range` value, in sorted key order. -/
def perform_discount_analysis (rows : List NRow) : List AggRow :=
  (sortedKeys rows).map (mkAggRow rows)

/-- One folding step of `idxmax`: keep the current best unless a strictly
larger value appears, so the first maximum wins. -/
def pickMax (acc x : String × ℚ) : String × ℚ :=
  if acc.2 < x.2 then x else acc

/-- `Series.idxmax` (source line 91) over an index/value list: drop NaN
values, return the first index holding the maximal remaining value; `none`
models the `ValueError` raised on an empty or all-NaN series. -/
def idxmaxKeys (l : List (String × Option ℚ)) : Option String :=
  match l.filterMap (fun p => p.2.map fun v => (p.1, v)) with
  | [] => none
  | v :: vs => some (vs.foldl pickMax v).1

/-- The recommended discount range: `idxmax` of the aggregate's
`profit_margin` column (source line 91). -/
def recommendedRange (rows : List NRow) : Option String :=
  idxmaxKeys ((perform_discount_analysis rows).map fun a =>
    (a.discount_range, a.avg_profit_margin))

/-- The whole pipeline on a numeric table: prepare, then aggregate. -/
def pipeline (raws : List RawRow) : List AggRow :=
  perform_discount_analysis ((prepare raws).filterMap toNumRow)

/-- The whole pipeline's recommendation. -/
def pipelineRecommend (raws : List RawRow) : Option String :=
  recommendedRange ((prepare raws).filterMap toNumRow)

/-- The five bucket labels in the fixed interval order of the data model. -/
def bucketLabels : List String :=
  ["0-10%", "10-20%", "20-30%", "30-40%", "40%+"]

/-- Every label a prepared row can carry: the five buckets and the
unmapped placeholder, in the order pandas sorts them. -/
def allLabels : List String := bucketLabels ++ ["nan"]

/-- `prepare` fused into a single row-wise traversal: a row survives iff
its `discount` coerces to a number and neither `profit` nor `sales` is
missing; nothing else decides survival. -/
def prepareRow (r : RawRow) : Option PreparedRow :=
  match toNumericCoerce r.discount with
  | none => none
  | some d =>
    if r.profit = Cell.missing ∨ r.sales = Cell.missing then none
    else some { discount := d
                profit := r.profit
                sales := r.sales
                profit_margin := (toNumericCoerce r.profit_margin).map (· * 100)
                discount_range := discountRange d }

/-- A two-row table whose buckets tie on `avg_profit_margin`, listed in
reverse interval order to exercise the sorting. -/
def tieRows : List NRow :=
  [⟨"10-20%", 1, 1, some 10⟩, ⟨"0-10%", 1, 1, some 10⟩]

/-!  Order facts about the lexicographic string comparison. -/

theorem strLeAux_cons_iff (a b : Char) (as bs : List Char) :
    strLeAux (a :: as) (b :: bs) = true ↔
      a.toNat < b.toNat ∨ (a.toNat = b.toNat ∧ strLeAux as bs = true) := by
  simp only [strLeAux]
  split_ifs with h1 h2
  · simp [h1]
  · simp only [Bool.false_eq_true, false_iff]
    rintro (h | ⟨h, -⟩) <;> omega
  · have : a.toNat = b.toNat := by omega
    simp [this, h1]

theorem strLeAux_total (as : List Char) :
    ∀ bs, strLeAux as bs = true ∨ strLeAux bs as = true := by
  induction as with
  | nil => intro bs; left; rfl
  | cons a as ih =>
    intro bs
    cases bs with
    | nil => right; rfl
    | cons b bs =>
      rw [strLeAux_cons_iff, strLeAux_cons_iff]
      rcases Nat.lt_trichotomy a.toNat b.toNat with h | h | h
      · exact Or.inl (Or.inl h)
      · rcases ih bs with h' | h'
        · exact Or.inl (Or.inr ⟨h, h'⟩)
        · exact Or.inr (Or.inr ⟨h.symm, h'⟩)
      · exact Or.inr (Or.inl h)

theorem strLeAux_antisymm (as : List Char) :
    ∀ bs, strLeAux as bs = true → strLeAux bs as = true → as = bs := by
  induction as with
  | nil =>
    intro bs _ hba
    cases bs with
    | nil => rfl
    | cons b bs => simp [strLeAux] at hba
  | cons a as ih =>
    intro bs hab hba
    cases bs with
    | nil => simp [strLeAux] at hab
    | cons b bs =>
      rw [strLeAux_cons_iff] at hab hba
      have hv : a.toNat = b.toNat := by omega
      have ha : a = b := Char.eq_of_val_eq (UInt32.ext hv)
      subst ha
      rcases hab with h | ⟨-, h1⟩
      · omega
      rcases hba with h | ⟨-, h2⟩
      · omega
      rw [ih bs h1 h2]

theorem strLeAux_trans (as : List Char) :
    ∀ bs cs, strLeAux as bs = true → strLeAux bs cs = true →
      strLeAux as cs = true := by
  induction as with
  | nil => intro bs cs _ _; rfl
  | cons a as ih =>
    intro bs cs hab hbc
    cases bs with
    | nil => simp [strLeAux] at hab
    | cons b bs =>
      cases cs with
      | nil => simp [strLeAux] at hbc
      | cons c cs =>
        rw [strLeAux_cons_iff] at hab hbc ⊢
        rcases hab with h | ⟨he, h1⟩
        · rcases hbc with h' | ⟨he', -⟩
          · exact Or.inl (by omega)
          · exact Or.inl (by omega)
        · rcases hbc with h' | ⟨he', h2⟩
          · exact Or.inl (by omega)
          · exact Or.inr ⟨by omega, ih bs cs h1 h2⟩

instance : IsTotal String fun a b => strLe a b = true :=
  ⟨fun a b => by cases a; cases b; exact strLeAux_total _ _⟩

instance : IsTrans String fun a b => strLe a b = true :=
  ⟨fun a b c hab hbc => by
    cases a; cases b; cases c
    exact strLeAux_trans _ _ _ hab hbc⟩

instance : IsAntisymm String fun a b => strLe a b = true :=
  ⟨fun a b hab hba => by
    cases a; cases b
    exact congrArg String.mk (strLeAux_antisymm _ _ hab hba)⟩

/-!  Facts about the sorted key list and the grouping. -/

theorem sortedKeys_nodup (rows : List NRow) : (sortedKeys rows).Nodup :=
  ((List.perm_insertionSort _ _).nodup_iff).2 (List.nodup_dedup _)

theorem mem_sortedKeys {rows : List NRow} {k : String} :
    k ∈ sortedKeys rows ↔ ∃ r ∈ rows, r.discount_range = k := by
  unfold sortedKeys
  rw [(List.perm_insertionSort _ _).mem_iff, List.mem_dedup, List.mem_map]

theorem sortedKeys_sorted (rows : List NRow) :
    List.Sorted (fun a b => strLe a b = true) (sortedKeys rows) :=
  List.sorted_insertionSort _ _

theorem sum_map_filter_not_add {α : Type} (p : α → Bool) (f : α → ℚ) :
    ∀ l : List α,
      ((l.filter p).map f).sum + ((l.filter fun a => !p a).map f).sum =
        (l.map f).sum := by
  intro l
  induction l with
  | nil => simp
  | cons a l ih =>
    cases h : p a <;> simp [List.filter_cons, h] <;> linarith

theorem group_filter_comm (rows : List NRow) (k k' : String) (hne : k' ≠ k) :
    group rows k' = group (rows.filter fun r => !(r.discount_range == k)) k' := by
  unfold group
  rw [List.filter_filter]
  apply List.filter_congr
  intro r _
  cases hdr : (r.discount_range == k') with
  | false => simp
  | true =>
    have : r.discount_range = k' := by simpa using hdr
    simp [this, hne]

theorem sum_group_eq (f : NRow → ℚ) :
    ∀ (ks : List String) (rows : List NRow), ks.Nodup →
      (∀ r ∈ rows, r.discount_range ∈ ks) →
      (ks.map fun k => ((group rows k).map f).sum).sum = (rows.map f).sum := by
  intro ks
  induction ks with
  | nil =>
    intro rows _ hcov
    cases rows with
    | nil => simp
    | cons r rs => exact absurd (hcov r (List.mem_cons_self r rs)) (List.not_mem_nil _)
  | cons k ks ih =>
    intro rows hnd hcov
    have hk : k ∉ ks := (List.nodup_cons.1 hnd).1
    have hGroups : ∀ k' ∈ ks,
        ((group rows k').map f).sum =
          ((group (rows.filter fun r => !(r.discount_range == k)) k').map f).sum := by
      intro k' hk'
      rw [group_filter_comm rows k k' (fun h => hk (h ▸ hk'))]
    simp only [List.map_cons, List.sum_cons]
    rw [List.map_congr_left hGroups,
      ih (rows.filter fun r => !(r.discount_range == k)) (List.nodup_cons.1 hnd).2 ?cov]
    case cov =>
      intro r hr
      rw [List.mem_filter] at hr
      have := hcov r hr.1
      rw [List.mem_cons] at this
      rcases this with h | h
      · simp [h] at hr
      · exact h
    exact sum_map_filter_not_add (fun r => r.discount_range == k) f rows

theorem prepare_eq_filterMap (raws : List RawRow) :
    prepare raws = raws.filterMap prepareRow := by
  induction raws with
  | nil => rfl
  | cons r raws ih =>
    simp only [prepare, List.map_cons, List.filter_cons, List.filterMap_cons] at *
    cases hd : toNumericCoerce r.discount with
    | none =>
      have hkeep : dropnaKeep (coerceRow r) = false := by
        simp [dropnaKeep, coerceRow, hd]
      simp [hkeep, prepareRow, hd, ih]
    | some d =>
      by_cases hp : r.profit = Cell.missing
      · have hkeep : dropnaKeep (coerceRow r) = false := by
          simp [dropnaKeep, coerceRow, hp]
        simp [hkeep, prepareRow, hd, hp, ih]
      · by_cases hs : r.sales = Cell.missing
        · have hkeep : dropnaKeep (coerceRow r) = false := by
            simp [dropnaKeep, coerceRow, hs]
          simp [hkeep, prepareRow, hd, hs, ih]
        · have hkeep : dropnaKeep (coerceRow r) = true := by
            simp [dropnaKeep, coerceRow, hd, hp, hs]
          simp only [hkeep, if_true, List.filterMap_cons]
          simp [addRange, coerceRow, hd, prepareRow, hp, hs, ih]

theorem mem_prepare {raws : List RawRow} {p : PreparedRow} :
    p ∈ prepare raws ↔ ∃ r ∈ raws, prepareRow r = some p := by
  rw [prepare_eq_filterMap, List.mem_filterMap]

theorem prepareRow_eq_some {r : RawRow} {p : PreparedRow} :
    prepareRow r = some p ↔
      ∃ d, toNumericCoerce r.discount = some d ∧
        r.profit ≠ Cell.missing ∧ r.sales ≠ Cell.missing ∧
        p = { discount := d
              profit := r.profit
              sales := r.sales
              profit_margin := (toNumericCoerce r.profit_margin).map (· * 100)
              discount_range := discountRange d } := by
  unfold prepareRow
  cases hd : toNumericCoerce r.discount with
  | none => simp
  | some d =>
    by_cases hp : r.profit = Cell.missing
    · simp [hp]
    · by_cases hs : r.sales = Cell.missing
      · simp [hp, hs]
      · simp [hp, hs, eq_comm]

theorem mem_analysis {rows : List NRow} {a : AggRow} :
    a ∈ perform_discount_analysis rows ↔
      ∃ k ∈ sortedKeys rows, a = mkAggRow rows k := by
  unfold perform_discount_analysis
  rw [List.mem_map]
  constructor <;> rintro ⟨k, h1, h2⟩ <;> exact ⟨k, h1, h2.symm⟩

theorem mkAggRow_range (rows : List NRow) (k : String) :
    (mkAggRow rows k).discount_range = k := rfl

/-- C4. For every prepared numeric table, the sum of `total_sales` over all
rows of the aggregate table — one row per distinct `discount_range` value,
the "nan" placeholder group included — equals the sum of `sales` over all
rows of the table: the groups partition the table. -/
theorem groups_partition_total_sales (rows : List NRow) :
    ((perform_discount_analysis rows).map AggRow.total_sales).sum =
      (rows.map NRow.sales).sum := by
  unfold perform_discount_analysis
  rw [List.map_map]
  exact sum_group_eq NRow.sales (sortedKeys rows) rows (sortedKeys_nodup rows)
    (fun r hr => mem_sortedKeys.2 ⟨r, hr, rfl⟩)

/-!  Evaluation helpers for concrete tables. -/

theorem prepareRow_eval (d : ℚ) (p s m : Cell) (hp : p ≠ Cell.missing)
    (hs : s ≠ Cell.missing) :
    prepareRow ⟨Cell.num d, p, s, m⟩ =
      some ⟨d, p, s, (toNumericCoerce m).map (· * 100), discountRange d⟩ := by
  unfold prepareRow
  dsimp only [toNumericCoerce]
  rw [if_neg]
  rintro (h | h)
  · exact hp h
  · exact hs h

theorem toNumRow_eval (d : ℚ) (a b : ℚ) (pm : Option ℚ) (dr : String) :
    toNumRow ⟨d, Cell.num a, Cell.num b, pm, dr⟩ = some ⟨dr, a, b, pm⟩ := rfl

theorem sortedKeys_eval (rows : List NRow) (ks : List String)
    (h1 : List.Perm ((rows.map NRow.discount_range).dedup) ks)
    (h2 : List.Pairwise (fun a b => strLe a b = true) ks) :
    sortedKeys rows = ks := by
  unfold sortedKeys
  exact List.eq_of_perm_of_sorted ((List.perm_insertionSort _ _).trans h1)
    (List.sorted_insertionSort _ _) h2

theorem mkAggRow_eval (rows : List NRow) (k : String) (g : List NRow)
    (ts tp : ℚ) (ms : List ℚ)
    (hg : group rows k = g)
    (hts : (g.map NRow.sales).sum = ts)
    (htp : (g.map NRow.profit).sum = tp)
    (hms : g.filterMap NRow.profit_margin = ms)
    (hne : ms ≠ []) (hts0 : ts ≠ 0) :
    mkAggRow rows k = ⟨k, ts, tp, some (ms.sum / ms.length), some (tp / ts * 100)⟩ := by
  unfold mkAggRow groupMargins
  rw [hg, hts, htp, hms, if_neg hne, if_neg hts0]

theorem mkAggRow_avg_none {rows : List NRow} {k : String}
    (h : groupMargins rows k = []) :
    (mkAggRow rows k).avg_profit_margin = none := by
  show (if groupMargins rows k = [] then none
    else some ((groupMargins rows k).sum / (groupMargins rows k).length)) = none
  rw [if_pos h]

theorem discountRange_eq_1 {d : ℚ} (h0 : 0 < d) (h1 : d ≤ 1/10) :
    discountRange d = "0-10%" := by
  unfold discountRange
  rw [if_pos ⟨h0, h1⟩]

theorem discountRange_eq_2 {d : ℚ} (h0 : 1/10 < d) (h1 : d ≤ 2/10) :
    discountRange d = "10-20%" := by
  unfold discountRange
  rw [if_neg (by rintro ⟨-, hx⟩; linarith), if_pos ⟨h0, h1⟩]

theorem discountRange_eq_3 {d : ℚ} (h0 : 2/10 < d) (h1 : d ≤ 3/10) :
    discountRange d = "20-30%" := by
  unfold discountRange
  rw [if_neg (by rintro ⟨-, hx⟩; linarith), if_neg (by rintro ⟨-, hx⟩; linarith),
    if_pos ⟨h0, h1⟩]

theorem discountRange_eq_4 {d : ℚ} (h0 : 3/10 < d) (h1 : d ≤ 4/10) :
    discountRange d = "30-40%" := by
  unfold discountRange
  rw [if_neg (by rintro ⟨-, hx⟩; linarith), if_neg (by rintro ⟨-, hx⟩; linarith),
    if_neg (by rintro ⟨-, hx⟩; linarith), if_pos ⟨h0, h1⟩]

theorem discountRange_eq_5 {d : ℚ} (h0 : 4/10 < d) (h1 : d ≤ 1) :
    discountRange d = "40%+" := by
  unfold discountRange
  rw [if_neg (by rintro ⟨-, hx⟩; linarith), if_neg (by rintro ⟨-, hx⟩; linarith),
    if_neg (by rintro ⟨-, hx⟩; linarith), if_neg (by rintro ⟨-, hx⟩; linarith),
    if_pos ⟨h0, h1⟩]

theorem discountRange_eq_nan {d : ℚ} (h : d ≤ 0 ∨ 1 < d) :
    discountRange d = "nan" := by
  have n1 : ¬(0 < d ∧ d ≤ 1/10) := by rintro ⟨ha, hb⟩; rcases h with h | h <;> linarith
  have n2 : ¬(1/10 < d ∧ d ≤ 2/10) := by rintro ⟨ha, hb⟩; rcases h with h | h <;> linarith
  have n3 : ¬(2/10 < d ∧ d ≤ 3/10) := by rintro ⟨ha, hb⟩; rcases h with h | h <;> linarith
  have n4 : ¬(3/10 < d ∧ d ≤ 4/10) := by rintro ⟨ha, hb⟩; rcases h with h | h <;> linarith
  have n5 : ¬(4/10 < d ∧ d ≤ 1) := by rintro ⟨ha, hb⟩; rcases h with h | h <;> linarith
  unfold discountRange
  rw [if_neg n1, if_neg n2, if_neg n3, if_neg n4, if_neg n5]

/-!  The claims. -/

/-- C1. Every prepared row's `discount_range` is `discountRange` of its own
`discount` and nothing else; `discountRange` maps the five half-open
intervals to the five fixed labels and everything outside them (zero,
negative, above 1) to the textual placeholder "nan"; and a surviving row is
kept in the prepared table whatever its bucket, the placeholder included. -/
theorem bucketing_assigns_by_interval (raws : List RawRow) :
    (∀ p ∈ prepare raws, p.discount_range = discountRange p.discount)
    ∧ (∀ d : ℚ,
        ((0 < d ∧ d ≤ 1/10) → discountRange d = "0-10%")
        ∧ ((1/10 < d ∧ d ≤ 2/10) → discountRange d = "10-20%")
        ∧ ((2/10 < d ∧ d ≤ 3/10) → discountRange d = "20-30%")
        ∧ ((3/10 < d ∧ d ≤ 4/10) → discountRange d = "30-40%")
        ∧ ((4/10 < d ∧ d ≤ 1) → discountRange d = "40%+")
        ∧ ((d ≤ 0 ∨ 1 < d) → discountRange d = "nan"))
    ∧ (∀ r ∈ raws, ∀ d : ℚ, toNumericCoerce r.discount = some d →
        r.profit ≠ Cell.missing → r.sales ≠ Cell.missing →
        ∃ p ∈ prepare raws, prepareRow r = some p ∧
          p.discount_range = discountRange d) := by
  refine ⟨?_, ?_, ?_⟩
  · intro p hp
    obtain ⟨r, -, hpr⟩ := mem_prepare.1 hp
    obtain ⟨d, -, -, -, rfl⟩ := prepareRow_eq_some.1 hpr
    rfl
  · intro d
    exact ⟨fun h => discountRange_eq_1 h.1 h.2, fun h => discountRange_eq_2 h.1 h.2,
      fun h => discountRange_eq_3 h.1 h.2, fun h => discountRange_eq_4 h.1 h.2,
      fun h => discountRange_eq_5 h.1 h.2, fun h => discountRange_eq_nan h⟩
  · intro r hr d hd hp hs
    have hpr : prepareRow r = some
        { discount := d
          profit := r.profit
          sales := r.sales
          profit_margin := (toNumericCoerce r.profit_margin).map (· * 100)
          discount_range := discountRange d } :=
      prepareRow_eq_some.2 ⟨d, hd, hp, hs, rfl⟩
    exact ⟨_, mem_prepare.2 ⟨r, hr, hpr⟩, hpr, rfl⟩

/-- Witness for C1: discount 1/20 is bucketed `0-10%`, and a row with
discount exactly 0 survives preparation carrying the "nan" placeholder. -/
theorem bucketing_assigns_by_interval_witness :
    discountRange (1/20) = "0-10%" ∧ discountRange 0 = "nan" ∧
    ∃ p ∈ prepare [⟨Cell.num 0, Cell.num 1, Cell.num 1, Cell.missing⟩],
      prepareRow ⟨Cell.num 0, Cell.num 1, Cell.num 1, Cell.missing⟩ = some p ∧
      p.discount_range = discountRange 0 := by
  refine ⟨((bucketing_assigns_by_interval []).2.1 (1/20)).1 ⟨by norm_num, by norm_num⟩,
    ((bucketing_assigns_by_interval []).2.1 0).2.2.2.2.2 (Or.inl le_rfl),
    (bucketing_assigns_by_interval
        [⟨Cell.num 0, Cell.num 1, Cell.num 1, Cell.missing⟩]).2.2
      _ (List.mem_singleton.2 rfl) 0 rfl (by simp) (by simp)⟩

/-- C3 counterexample. The claim says a row with a non-numeric `sales`
value is dropped; the code never coerces `sales`, so the string "abc" is
not NaN and the row survives `dropna` into the prepared table. -/
theorem nonnumeric_sales_row_kept :
    prepare [⟨Cell.num (1/20), Cell.num 100, Cell.str "abc", Cell.num (1/10)⟩] =
      [⟨1/20, Cell.num 100, Cell.str "abc", some 10, "0-10%"⟩] := by
  rw [prepare_eq_filterMap,
    List.filterMap_cons_some (prepareRow_eval _ _ _ _ (by simp) (by simp)),
    List.filterMap_nil]
  rw [discountRange_eq_1 (by norm_num) (by norm_num)]
  norm_num [toNumericCoerce]

/-- C3 amended. A row is dropped during preparation iff its `discount` is
missing or non-numeric, or its `profit` is missing, or its `sales` is
missing; a present but non-numeric `profit` or `sales` does not drop the
row, and `profit_margin` (missing or not) never does. -/
theorem row_filtering_amended (raws : List RawRow) :
    prepare raws = raws.filterMap prepareRow ∧
    ∀ r : RawRow,
      prepareRow r ≠ none ↔
        ((toNumericCoerce r.discount).isSome ∧
          r.profit ≠ Cell.missing ∧ r.sales ≠ Cell.missing) := by
  refine ⟨prepare_eq_filterMap raws, fun r => ?_⟩
  unfold prepareRow
  cases hd : toNumericCoerce r.discount with
  | none => simp [hd]
  | some d =>
    by_cases hp : r.profit = Cell.missing
    · simp [hd, hp]
    · by_cases hs : r.sales = Cell.missing
      · simp [hd, hp, hs]
      · simp [hd, hp, hs]

/-- Witness for C3's amended claim: a row with numeric discount, numeric
sales, but a non-numeric string in `profit`, satisfies the keep
condition. -/
theorem row_filtering_amended_witness :
    (toNumericCoerce (Cell.num (1/20))).isSome ∧
      Cell.str "abc" ≠ Cell.missing ∧ Cell.num 1 ≠ Cell.missing :=
  ((row_filtering_amended []).2 ⟨Cell.num (1/20), Cell.str "abc", Cell.num 1,
    Cell.missing⟩).1 (by simp [prepareRow, toNumericCoerce])

/-- C2. The spec's worked example: two rows with discounts 0.05 and 0.15,
run through prepare and aggregate, yield exactly the two bucket rows
`0-10%` (total_sales 1000, total_profit 100, avg margin 10, ratio 10) and
`10-20%` (total_sales 500, total_profit 50, avg margin 5, ratio 10), in
this order. -/
theorem worked_example_two_rows :
    pipeline [⟨Cell.num (5/100), Cell.num 100, Cell.num 1000, Cell.num (1/10)⟩,
              ⟨Cell.num (15/100), Cell.num 50, Cell.num 500, Cell.num (5/100)⟩] =
      [⟨"0-10%", 1000, 100, some 10, some 10⟩,
       ⟨"10-20%", 500, 50, some 5, some 10⟩] := by
  have h1 : prepareRow ⟨Cell.num (5/100), Cell.num 100, Cell.num 1000,
      Cell.num (1/10)⟩ =
      some ⟨5/100, Cell.num 100, Cell.num 1000, some 10, "0-10%"⟩ := by
    rw [prepareRow_eval _ _ _ _ (by simp) (by simp),
      discountRange_eq_1 (by norm_num) (by norm_num)]
    norm_num [toNumericCoerce]
  have h2 : prepareRow ⟨Cell.num (15/100), Cell.num 50, Cell.num 500,
      Cell.num (5/100)⟩ =
      some ⟨15/100, Cell.num 50, Cell.num 500, some 5, "10-20%"⟩ := by
    rw [prepareRow_eval _ _ _ _ (by simp) (by simp),
      discountRange_eq_2 (by norm_num) (by norm_num)]
    norm_num [toNumericCoerce]
  have hprep : (prepare [⟨Cell.num (5/100), Cell.num 100, Cell.num 1000,
        Cell.num (1/10)⟩,
      ⟨Cell.num (15/100), Cell.num 50, Cell.num 500, Cell.num (5/100)⟩]).filterMap
        toNumRow =
      [⟨"0-10%", 100, 1000, some 10⟩, ⟨"10-20%", 50, 500, some 5⟩] := by
    rw [prepare_eq_filterMap, List.filterMap_cons_some h1, List.filterMap_cons_some h2,
      List.filterMap_nil, List.filterMap_cons_some (toNumRow_eval _ _ _ _ _),
      List.filterMap_cons_some (toNumRow_eval _ _ _ _ _), List.filterMap_nil]
  unfold pipeline
  rw [hprep]
  unfold perform_discount_analysis
  rw [sortedKeys_eval _ ["0-10%", "10-20%"] (by decide) (by decide)]
  rw [List.map_cons, List.map_cons, List.map_nil]
  rw [mkAggRow_eval _ _ [⟨"0-10%", 100, 1000, some 10⟩] 1000 100 [10]
      (by decide) (by norm_num) (by norm_num) (by decide) (by simp) (by norm_num),
    mkAggRow_eval _ _ [⟨"10-20%", 50, 500, some 5⟩] 500 50 [5]
      (by decide) (by norm_num) (by norm_num) (by decide) (by simp) (by norm_num)]
  norm_num

/-- C6 (the code at the claim's input). A table whose single row has a
non-numeric discount prepares to the empty table and aggregates to the
empty table, as the claim says; but the recommendation is `idxmax` over an
empty column — the `none` branch of `idxmaxKeys`, which in pandas raises
`ValueError` (`main` at source line 91 has no empty-table guard), not an
explicit "no recommendation" result. -/
theorem empty_input_empty_aggregate_idxmax_error :
    prepare [⟨Cell.str "abc", Cell.num 1, Cell.num 1, Cell.num (1/10)⟩] = [] ∧
    pipeline [⟨Cell.str "abc", Cell.num 1, Cell.num 1, Cell.num (1/10)⟩] = [] ∧
    pipelineRecommend [⟨Cell.str "abc", Cell.num 1, Cell.num 1, Cell.num (1/10)⟩] =
      none ∧
    idxmaxKeys [] = none := by
  have h0 : prepare [⟨Cell.str "abc", Cell.num 1, Cell.num 1, Cell.num (1/10)⟩] = [] := by
    rw [prepare_eq_filterMap, List.filterMap_cons_none rfl, List.filterMap_nil]
  refine ⟨h0, ?_, ?_, rfl⟩
  · unfold pipeline
    rw [h0]
    rfl
  · unfold pipelineRecommend
    rw [h0]
    rfl

/-- C5. For every row of the aggregate table, `total_sales` and
`total_profit` are the sums of `sales` and `profit` over all rows of its
group — rows with a missing `profit_margin` included — while
`avg_profit_margin` is the arithmetic mean of the (already
percentage-scaled) `profit_margin` values over only the group's rows that
have one. -/
theorem group_aggregates_formula (rows : List NRow) (a : AggRow)
    (ha : a ∈ perform_discount_analysis rows) :
    a.total_sales =
      ((rows.filter fun r => r.discount_range == a.discount_range).map NRow.sales).sum
    ∧ a.total_profit =
      ((rows.filter fun r => r.discount_range == a.discount_range).map NRow.profit).sum
    ∧ ((rows.filter fun r => r.discount_range == a.discount_range).filterMap
          NRow.profit_margin ≠ [] →
        a.avg_profit_margin = some
          (((rows.filter fun r => r.discount_range == a.discount_range).filterMap
              NRow.profit_margin).sum /
            ((rows.filter fun r => r.discount_range == a.discount_range).filterMap
              NRow.profit_margin).length)) := by
  obtain ⟨k, hk, rfl⟩ := mem_analysis.1 ha
  refine ⟨rfl, rfl, fun h => ?_⟩
  have h' : groupMargins rows k ≠ [] := h
  show (if groupMargins rows k = [] then none
    else some ((groupMargins rows k).sum / (groupMargins rows k).length)) = _
  rw [if_neg h']
  rfl

/-- Witness for C5 on a two-row group whose first row lacks a
`profit_margin`: both rows feed the sums (3 + 7 and 2 + 5), only the
second feeds the mean. -/
theorem group_aggregates_formula_witness :
    (mkAggRow [⟨"0-10%", 2, 3, none⟩, ⟨"0-10%", 5, 7, some 4⟩] "0-10%").total_sales = 10
    ∧ (mkAggRow [⟨"0-10%", 2, 3, none⟩, ⟨"0-10%", 5, 7, some 4⟩] "0-10%").total_profit = 7
    ∧ (mkAggRow [⟨"0-10%", 2, 3, none⟩, ⟨"0-10%", 5, 7, some 4⟩]
        "0-10%").avg_profit_margin = some 4 := by
  obtain ⟨h1, h2, h3⟩ := group_aggregates_formula
    [⟨"0-10%", 2, 3, none⟩, ⟨"0-10%", 5, 7, some 4⟩]
    (mkAggRow [⟨"0-10%", 2, 3, none⟩, ⟨"0-10%", 5, 7, some 4⟩] "0-10%")
    (mem_analysis.2 ⟨"0-10%", by decide, rfl⟩)
  refine ⟨?_, ?_, ?_⟩
  · rw [h1, show (([⟨"0-10%", 2, 3, none⟩, ⟨"0-10%", 5, 7, some 4⟩] : List NRow).filter
      fun r => r.discount_range ==
        (mkAggRow [⟨"0-10%", 2, 3, none⟩, ⟨"0-10%", 5, 7, some 4⟩]
          "0-10%").discount_range) =
      [⟨"0-10%", 2, 3, none⟩, ⟨"0-10%", 5, 7, some 4⟩] from by decide]
    norm_num
  · rw [h2, show (([⟨"0-10%", 2, 3, none⟩, ⟨"0-10%", 5, 7, some 4⟩] : List NRow).filter
      fun r => r.discount_range ==
        (mkAggRow [⟨"0-10%", 2, 3, none⟩, ⟨"0-10%", 5, 7, some 4⟩]
          "0-10%").discount_range) =
      [⟨"0-10%", 2, 3, none⟩, ⟨"0-10%", 5, 7, some 4⟩] from by decide]
    norm_num
  · rw [h3 (by decide), show ((([⟨"0-10%", 2, 3, none⟩, ⟨"0-10%", 5, 7, some 4⟩] :
        List NRow).filter
      fun r => r.discount_range ==
        (mkAggRow [⟨"0-10%", 2, 3, none⟩, ⟨"0-10%", 5, 7, some 4⟩]
          "0-10%").discount_range).filterMap NRow.profit_margin) = [4] from by decide]
    norm_num

/-- C8. Whatever the data, the aggregate has one row per distinct
`discount_range` value — a zero-sales group removes nothing — and
`profit_to_sales_ratio` is the non-finite sentinel (`none`) exactly for
groups whose `total_sales` sums to 0, and the finite value
`total_profit / total_sales * 100` otherwise. -/
theorem zero_sales_ratio_sentinel_keeps_groups (rows : List NRow) :
    (∀ k ∈ sortedKeys rows, ∃ a ∈ perform_discount_analysis rows,
      a.discount_range = k)
    ∧ (∀ a ∈ perform_discount_analysis rows,
        (a.total_sales = 0 → a.profit_to_sales_ratio = none)
        ∧ (a.total_sales ≠ 0 →
            a.profit_to_sales_ratio = some (a.total_profit / a.total_sales * 100))) := by
  constructor
  · intro k hk
    exact ⟨mkAggRow rows k, List.mem_map_of_mem _ hk, rfl⟩
  · intro a ha
    obtain ⟨k, hk, rfl⟩ := mem_analysis.1 ha
    constructor
    · intro h
      have h' : ((group rows k).map NRow.sales).sum = 0 := h
      show (if ((group rows k).map NRow.sales).sum = 0 then none else _) = none
      rw [if_pos h']
    · intro h
      have h' : ((group rows k).map NRow.sales).sum ≠ 0 := h
      show (if ((group rows k).map NRow.sales).sum = 0 then none else _) = _
      rw [if_neg h']
      rfl

/-- Witness for C8: the `0-10%` group has total sales 0 and gets the
sentinel ratio, while the `nan` group is still produced. -/
theorem zero_sales_ratio_sentinel_keeps_groups_witness :
    (mkAggRow [⟨"0-10%", 5, 0, none⟩, ⟨"nan", 1, 2, none⟩]
      "0-10%").profit_to_sales_ratio = none
    ∧ ∃ a ∈ perform_discount_analysis [⟨"0-10%", 5, 0, none⟩, ⟨"nan", 1, 2, none⟩],
        a.discount_range = "nan" := by
  constructor
  · refine ((zero_sales_ratio_sentinel_keeps_groups
        [⟨"0-10%", 5, 0, none⟩, ⟨"nan", 1, 2, none⟩]).2
      (mkAggRow [⟨"0-10%", 5, 0, none⟩, ⟨"nan", 1, 2, none⟩] "0-10%")
      (mem_analysis.2 ⟨"0-10%", by decide, rfl⟩)).1 ?_
    show ((group [⟨"0-10%", 5, 0, none⟩, ⟨"nan", 1, 2, none⟩] "0-10%").map
      NRow.sales).sum = 0
    rw [show group [⟨"0-10%", 5, 0, none⟩, ⟨"nan", 1, 2, none⟩] "0-10%" =
      [⟨"0-10%", 5, 0, none⟩] from by decide]
    norm_num
  · exact (zero_sales_ratio_sentinel_keeps_groups
      [⟨"0-10%", 5, 0, none⟩, ⟨"nan", 1, 2, none⟩]).1 "nan" (by decide)

theorem foldl_max_spec (as : List ℚ) :
    ∀ a : ℚ, a ≤ as.foldl max a ∧ ∀ x ∈ as, x ≤ as.foldl max a := by
  induction as with
  | nil => intro a; exact ⟨le_rfl, by simp⟩
  | cons b as ih =>
    intro a
    simp only [List.foldl_cons]
    have h := ih (max a b)
    refine ⟨le_trans (le_max_left a b) h.1, ?_⟩
    intro x hx
    rcases List.mem_cons.1 hx with rfl | hx
    · exact le_trans (le_max_right a x) h.1
    · exact h.2 x hx

theorem foldl_min_spec (as : List ℚ) :
    ∀ a : ℚ, as.foldl min a ≤ a ∧ ∀ x ∈ as, as.foldl min a ≤ x := by
  induction as with
  | nil => intro a; exact ⟨le_rfl, by simp⟩
  | cons b as ih =>
    intro a
    simp only [List.foldl_cons]
    have h := ih (min a b)
    refine ⟨le_trans h.1 (min_le_left a b), ?_⟩
    intro x hx
    rcases List.mem_cons.1 hx with rfl | hx
    · exact le_trans h.1 (min_le_right a x)
    · exact h.2 x hx

theorem sum_le_length_mul (l : List ℚ) (m : ℚ) (h : ∀ x ∈ l, x ≤ m) :
    l.sum ≤ l.length * m := by
  induction l with
  | nil => simp
  | cons a l ih =>
    simp only [List.sum_cons, List.length_cons]
    push_cast
    have ha := h a (List.mem_cons_self a l)
    have hl := ih fun x hx => h x (List.mem_cons_of_mem a hx)
    calc a + l.sum ≤ m + (l.length : ℚ) * m := by linarith
    _ = ((l.length : ℚ) + 1) * m := by ring

theorem length_mul_le_sum (l : List ℚ) (m : ℚ) (h : ∀ x ∈ l, m ≤ x) :
    (l.length : ℚ) * m ≤ l.sum := by
  induction l with
  | nil => simp
  | cons a l ih =>
    simp only [List.sum_cons, List.length_cons]
    push_cast
    have ha := h a (List.mem_cons_self a l)
    have hl := ih fun x hx => h x (List.mem_cons_of_mem a hx)
    calc ((l.length : ℚ) + 1) * m = m + (l.length : ℚ) * m := by ring
    _ ≤ a + l.sum := by linarith

/-- C9. For every aggregate row whose group has at least one non-missing
`profit_margin` (so its min and max exist), `avg_profit_margin` exists and
lies between the minimum and the maximum of the group's non-missing
(percentage-scaled) margins. -/
theorem avg_margin_between_min_max (rows : List NRow) (a : AggRow)
    (ha : a ∈ perform_discount_analysis rows) (mn mx : ℚ)
    (hmn : (groupMargins rows a.discount_range).min? = some mn)
    (hmx : (groupMargins rows a.discount_range).max? = some mx) :
    ∃ v, a.avg_profit_margin = some v ∧ mn ≤ v ∧ v ≤ mx := by
  obtain ⟨k, hk, rfl⟩ := mem_analysis.1 ha
  have hmn' : (groupMargins rows k).min? = some mn := hmn
  have hmx' : (groupMargins rows k).max? = some mx := hmx
  cases hms : groupMargins rows k with
  | nil => rw [hms] at hmn'; exact absurd hmn' (by simp)
  | cons m ms =>
    rw [hms] at hmn' hmx'
    have hmn2 : ms.foldl min m = mn := Option.some.inj hmn'
    have hmx2 : ms.foldl max m = mx := Option.some.inj hmx'
    have hne : groupMargins rows k ≠ [] := by rw [hms]; simp
    have hminspec := foldl_min_spec ms m
    have hmaxspec := foldl_max_spec ms m
    have hlow : ∀ x ∈ groupMargins rows k, mn ≤ x := by
      rw [hms]
      intro x hx
      rcases List.mem_cons.1 hx with rfl | hx
      · rw [← hmn2]; exact hminspec.1
      · rw [← hmn2]; exact hminspec.2 x hx
    have hhigh : ∀ x ∈ groupMargins rows k, x ≤ mx := by
      rw [hms]
      intro x hx
      rcases List.mem_cons.1 hx with rfl | hx
      · rw [← hmx2]; exact hmaxspec.1
      · rw [← hmx2]; exact hmaxspec.2 x hx
    have hlen : (0 : ℚ) < (groupMargins rows k).length := by
      rw [hms]
      simp only [List.length_cons]
      push_cast
      have h0 : (0 : ℚ) ≤ (ms.length : ℚ) := Nat.cast_nonneg _
      linarith
    refine ⟨(groupMargins rows k).sum / (groupMargins rows k).length, ?_, ?_, ?_⟩
    · show (if groupMargins rows k = [] then none else some _) = _
      rw [if_neg hne]
    · rw [le_div_iff hlen]
      calc mn * ((groupMargins rows k).length : ℚ)
          = ((groupMargins rows k).length : ℚ) * mn := by ring
      _ ≤ _ := length_mul_le_sum _ mn hlow
    · rw [div_le_iff hlen]
      calc (groupMargins rows k).sum
          ≤ ((groupMargins rows k).length : ℚ) * mx := sum_le_length_mul _ mx hhigh
      _ = mx * ((groupMargins rows k).length : ℚ) := by ring

/-- Witness for C9: a group with margins 2 and 6 has its mean (4) between
min 2 and max 6. -/
theorem avg_margin_between_min_max_witness :
    ∃ v, (mkAggRow [⟨"0-10%", 1, 1, some 2⟩, ⟨"0-10%", 1, 1, some 6⟩]
        "0-10%").avg_profit_margin = some v ∧ 2 ≤ v ∧ v ≤ 6 := by
  refine avg_margin_between_min_max
    [⟨"0-10%", 1, 1, some 2⟩, ⟨"0-10%", 1, 1, some 6⟩]
    (mkAggRow [⟨"0-10%", 1, 1, some 2⟩, ⟨"0-10%", 1, 1, some 6⟩] "0-10%")
    (mem_analysis.2 ⟨"0-10%", by decide, rfl⟩) 2 6 ?_ ?_
  · show (groupMargins [⟨"0-10%", 1, 1, some 2⟩, ⟨"0-10%", 1, 1, some 6⟩]
      "0-10%").min? = some 2
    rw [show groupMargins [⟨"0-10%", 1, 1, some 2⟩, ⟨"0-10%", 1, 1, some 6⟩]
      "0-10%" = [2, 6] from by decide]
    show some (min (2 : ℚ) 6) = some 2
    norm_num [min_def]
  · show (groupMargins [⟨"0-10%", 1, 1, some 2⟩, ⟨"0-10%", 1, 1, some 6⟩]
      "0-10%").max? = some 6
    rw [show groupMargins [⟨"0-10%", 1, 1, some 2⟩, ⟨"0-10%", 1, 1, some 6⟩]
      "0-10%" = [2, 6] from by decide]
    show some (max (2 : ℚ) 6) = some 6
    norm_num [max_def]

theorem foldl_pickMax_mem (vs : List (String × ℚ)) :
    ∀ acc, vs.foldl pickMax acc = acc ∨ vs.foldl pickMax acc ∈ vs := by
  induction vs with
  | nil => intro acc; exact Or.inl rfl
  | cons y vs ih =>
    intro acc
    simp only [List.foldl_cons]
    rcases ih (pickMax acc y) with h | h
    · rw [h]
      unfold pickMax
      split_ifs
      · exact Or.inr (List.mem_cons_self y vs)
      · exact Or.inl rfl
    · exact Or.inr (List.mem_cons_of_mem y h)

theorem idxmaxKeys_eq_some {l : List (String × Option ℚ)} {k : String}
    (h : idxmaxKeys l = some k) : ∃ v : ℚ, (k, some v) ∈ l := by
  unfold idxmaxKeys at h
  cases hv : l.filterMap (fun p => p.2.map fun v => (p.1, v)) with
  | nil => rw [hv] at h; cases h
  | cons v vs =>
    rw [hv] at h
    have hk : (vs.foldl pickMax v).1 = k := Option.some.inj h
    have hm : vs.foldl pickMax v ∈ v :: vs := by
      rcases foldl_pickMax_mem vs v with h' | h'
      · rw [h']; exact List.mem_cons_self v vs
      · exact List.mem_cons_of_mem v h'
    rw [← hv] at hm
    obtain ⟨p, hp, hpe⟩ := List.mem_filterMap.1 hm
    obtain ⟨w, hw, hwe⟩ := Option.map_eq_some'.1 hpe
    refine ⟨w, ?_⟩
    have : p = (k, some w) := by
      have h1 : p.1 = k := by rw [← hk, ← hwe]
      have h2 : p.2 = some w := hw
      cases p
      simp only at h1 h2
      rw [h1, h2]
    rw [← this]
    exact hp

/-- C10. A group all of whose rows lack `profit_margin` gets a missing
(`none`, i.e. NaN) `avg_profit_margin` rather than an error, and the
recommendation — `idxmax`, which skips missing values — never selects
it. -/
theorem all_missing_margin_group_never_recommended (rows : List NRow)
    (k : String) (hall : groupMargins rows k = []) :
    (∀ a ∈ perform_discount_analysis rows, a.discount_range = k →
      a.avg_profit_margin = none)
    ∧ recommendedRange rows ≠ some k := by
  have havg : ∀ a ∈ perform_discount_analysis rows, a.discount_range = k →
      a.avg_profit_margin = none := by
    intro a ha hdr
    obtain ⟨k', hk', rfl⟩ := mem_analysis.1 ha
    have hkk : k' = k := hdr
    subst hkk
    show (if groupMargins rows k' = [] then none else some _) = none
    rw [if_pos hall]
  refine ⟨havg, fun hrec => ?_⟩
  obtain ⟨v, hv⟩ := idxmaxKeys_eq_some hrec
  obtain ⟨a, ha, hae⟩ := List.mem_map.1 hv
  have h1 : a.discount_range = k := congrArg Prod.fst hae
  have h2 : a.avg_profit_margin = some v := congrArg Prod.snd hae
  rw [havg a ha h1] at h2
  cases h2

/-- Witness for C10: the `0-10%` group has only a missing margin, gets a
`none` mean, and the `10-20%` group is recommended instead. -/
theorem all_missing_margin_group_never_recommended_witness :
    (∀ a ∈ perform_discount_analysis
        [⟨"0-10%", 1, 1, none⟩, ⟨"10-20%", 1, 1, some 5⟩],
      a.discount_range = "0-10%" → a.avg_profit_margin = none)
    ∧ recommendedRange [⟨"0-10%", 1, 1, none⟩, ⟨"10-20%", 1, 1, some 5⟩] ≠
        some "0-10%" :=
  all_missing_margin_group_never_recommended
    [⟨"0-10%", 1, 1, none⟩, ⟨"10-20%", 1, 1, some 5⟩] "0-10%" (by decide)

theorem foldl_pickMax_of_le (vs : List (String × ℚ)) :
    ∀ acc, (∀ x ∈ vs, x.2 ≤ acc.2) → vs.foldl pickMax acc = acc := by
  induction vs with
  | nil => intro acc _; rfl
  | cons y vs ih =>
    intro acc h
    simp only [List.foldl_cons]
    have hy : pickMax acc y = acc := by
      unfold pickMax
      rw [if_neg (not_lt.2 (h y (List.mem_cons_self y vs)))]
    rw [hy]
    exact ih acc fun x hx => h x (List.mem_cons_of_mem y hx)

theorem foldl_pickMax_through (pre : List (String × ℚ)) :
    ∀ (acc x : String × ℚ) (post : List (String × ℚ)),
      acc.2 < x.2 → (∀ y ∈ pre, y.2 < x.2) → (∀ y ∈ post, y.2 ≤ x.2) →
      (pre ++ x :: post).foldl pickMax acc = x := by
  induction pre with
  | nil =>
    intro acc x post hacc _ hpost
    simp only [List.nil_append, List.foldl_cons]
    have hx : pickMax acc x = x := by
      unfold pickMax
      rw [if_pos hacc]
    rw [hx]
    exact foldl_pickMax_of_le post x hpost
  | cons a pre ih =>
    intro acc x post hacc hpre hpost
    simp only [List.cons_append, List.foldl_cons]
    have ha : a.2 < x.2 := hpre a (List.mem_cons_self a pre)
    have hnext : (pickMax acc a).2 < x.2 := by
      unfold pickMax
      split_ifs <;> assumption
    exact ih (pickMax acc a) x post hnext
      (fun y hy => hpre y (List.mem_cons_of_mem a hy)) hpost

theorem avg_some_imp_key {rows : List NRow} {x : String} {v : ℚ}
    (hv : (mkAggRow rows x).avg_profit_margin = some v) : x ∈ sortedKeys rows := by
  have hgm : groupMargins rows x ≠ [] := by
    intro h
    have hnone : (mkAggRow rows x).avg_profit_margin = none := by
      show (if groupMargins rows x = [] then none else some _) = none
      rw [if_pos h]
    rw [hnone] at hv
    cases hv
  have hgr : group rows x ≠ [] := by
    intro h
    apply hgm
    unfold groupMargins
    rw [h]
    rfl
  obtain ⟨r, hr⟩ := List.exists_mem_of_ne_nil _ hgr
  have hrr := List.mem_filter.1 hr
  exact mem_sortedKeys.2 ⟨r, hrr.1, by simpa using hrr.2⟩

theorem lt_max_of_not_attaining (rows : List NRow) (m v : ℚ) (x : String)
    (hmax : ∀ a ∈ perform_discount_analysis rows, ∀ w,
      a.avg_profit_margin = some w → w ≤ m)
    (hv : (mkAggRow rows x).avg_profit_margin = some v)
    (hne : (mkAggRow rows x).avg_profit_margin ≠ some m) : v < m := by
  have hkey := avg_some_imp_key hv
  have hle := hmax (mkAggRow rows x) (mem_analysis.2 ⟨x, hkey, rfl⟩) v hv
  rcases lt_or_eq_of_le hle with h | h
  · exact h
  · exact absurd (by rw [hv, h]) hne

theorem recommend_eq_of_split (rows : List NRow) (b : String) (m : ℚ)
    (L R : List String) (hsk : sortedKeys rows = L ++ b :: R)
    (hbm : (mkAggRow rows b).avg_profit_margin = some m)
    (hL : ∀ x ∈ L, ∀ v, (mkAggRow rows x).avg_profit_margin = some v → v < m)
    (hR : ∀ x ∈ R, ∀ v, (mkAggRow rows x).avg_profit_margin = some v → v ≤ m) :
    recommendedRange rows = some b := by
  unfold recommendedRange perform_discount_analysis
  rw [List.map_map, hsk, List.map_append, List.map_cons]
  have hfb : (fun p : String × Option ℚ => p.2.map fun v => (p.1, v))
      (((fun a : AggRow => (a.discount_range, a.avg_profit_margin)) ∘
        mkAggRow rows) b) = some (b, m) := by
    show ((mkAggRow rows b).avg_profit_margin).map
      (fun v => ((mkAggRow rows b).discount_range, v)) = some (b, m)
    rw [hbm]
    rfl
  unfold idxmaxKeys
  rw [List.filterMap_append,
    @List.filterMap_cons_some (String × Option ℚ) (String × ℚ)
      (fun p => p.2.map fun v => (p.1, v))
      (((fun a : AggRow => (a.discount_range, a.avg_profit_margin)) ∘
        mkAggRow rows) b)
      (R.map ((fun a : AggRow => (a.discount_range, a.avg_profit_margin)) ∘
        mkAggRow rows))
      (b, m) hfb]
  have hmem : ∀ (S : List String) (y : String × ℚ),
      y ∈ (S.map ((fun a : AggRow => (a.discount_range, a.avg_profit_margin)) ∘
          mkAggRow rows)).filterMap (fun p => p.2.map fun v => (p.1, v)) →
      ∃ x ∈ S, (mkAggRow rows x).avg_profit_margin = some y.2 := by
    intro S y hy
    obtain ⟨p, hp, hpe⟩ := List.mem_filterMap.1 hy
    obtain ⟨x, hx, rfl⟩ := List.mem_map.1 hp
    obtain ⟨w, hw, hwe⟩ := Option.map_eq_some'.1 hpe
    refine ⟨x, hx, ?_⟩
    rw [← hwe]
    exact hw
  have hB : ∀ y ∈ (R.map ((fun a : AggRow =>
      (a.discount_range, a.avg_profit_margin)) ∘ mkAggRow rows)).filterMap
        (fun p => p.2.map fun v => (p.1, v)), y.2 ≤ (b, m).2 := by
    intro y hy
    obtain ⟨x, hx, hxv⟩ := hmem R y hy
    exact hR x hx y.2 hxv
  cases hAs : (L.map ((fun a : AggRow =>
      (a.discount_range, a.avg_profit_margin)) ∘ mkAggRow rows)).filterMap
        (fun p => p.2.map fun v => (p.1, v)) with
  | nil =>
    rw [List.nil_append]
    show some ((((R.map ((fun a : AggRow =>
      (a.discount_range, a.avg_profit_margin)) ∘ mkAggRow rows)).filterMap
        (fun p => p.2.map fun v => (p.1, v))).foldl pickMax (b, m)).1) = some b
    rw [foldl_pickMax_of_le _ (b, m) hB]
  | cons a A' =>
    rw [List.cons_append]
    show some ((((A' ++ (b, m) :: (R.map ((fun a : AggRow =>
      (a.discount_range, a.avg_profit_margin)) ∘ mkAggRow rows)).filterMap
        (fun p => p.2.map fun v => (p.1, v)))).foldl pickMax a).1) = some b
    have hamem : a ∈ (L.map ((fun a : AggRow =>
        (a.discount_range, a.avg_profit_margin)) ∘ mkAggRow rows)).filterMap
          (fun p => p.2.map fun v => (p.1, v)) := by
      rw [hAs]
      exact List.mem_cons_self a A'
    have ha : a.2 < (b, m).2 := by
      obtain ⟨x, hx, hxv⟩ := hmem L a hamem
      exact hL x hx a.2 hxv
    have hA' : ∀ y ∈ A', y.2 < (b, m).2 := by
      intro y hy
      have hymem : y ∈ (L.map ((fun a : AggRow =>
          (a.discount_range, a.avg_profit_margin)) ∘ mkAggRow rows)).filterMap
            (fun p => p.2.map fun v => (p.1, v)) := by
        rw [hAs]
        exact List.mem_cons_of_mem a hy
      obtain ⟨x, hx, hxv⟩ := hmem L y hymem
      exact hL x hx y.2 hxv
    rw [foldl_pickMax_through A' a (b, m) _ ha hA' hB]

theorem recommend_first_core (rows : List NRow)
    (hkeys : ∀ r ∈ rows, r.discount_range ∈ allLabels)
    (b : String) (m : ℚ) (A B : List String)
    (hAB : allLabels = A ++ b :: B)
    (hbm : (mkAggRow rows b).avg_profit_margin = some m)
    (hmax : ∀ a ∈ perform_discount_analysis rows, ∀ v,
      a.avg_profit_margin = some v → v ≤ m)
    (hA : ∀ x ∈ A, ∀ v, (mkAggRow rows x).avg_profit_margin = some v → v < m) :
    recommendedRange rows = some b := by
  have hsub : ∀ l ∈ sortedKeys rows, l ∈ allLabels := by
    intro l hl
    obtain ⟨r, hr, hrdr⟩ := mem_sortedKeys.1 hl
    rw [← hrdr]
    exact hkeys r hr
  have hfil : sortedKeys rows =
      allLabels.filter fun l => l ∈ sortedKeys rows := by
    refine List.eq_of_perm_of_sorted ?_ (sortedKeys_sorted rows) ?_
    · refine (List.perm_ext_iff_of_nodup (sortedKeys_nodup rows)
        (List.Nodup.filter _ (by decide))).2 ?_
      intro x
      rw [List.mem_filter]
      constructor
      · intro hx
        exact ⟨hsub x hx, by simpa using hx⟩
      · rintro ⟨-, hx⟩
        simpa using hx
    · have hpw : List.Pairwise (fun a b => strLe a b = true) allLabels := by decide
      exact List.Pairwise.sublist (List.filter_sublist _) hpw
  have hbk : b ∈ sortedKeys rows := avg_some_imp_key hbm
  have hsplit : sortedKeys rows =
      (A.filter fun l => l ∈ sortedKeys rows) ++ b ::
        (B.filter fun l => l ∈ sortedKeys rows) := by
    conv_lhs => rw [hfil]
    rw [hAB, List.filter_append, List.filter_cons_of_pos (by simpa using hbk)]
  refine recommend_eq_of_split rows b m _ _ hsplit hbm ?_ ?_
  · intro x hx v hv
    exact hA x (List.mem_of_mem_filter hx) v hv
  · intro x hx v hv
    exact hmax (mkAggRow rows x) (mem_analysis.2 ⟨x, avg_some_imp_key hv, rfl⟩) v hv

/-- C7. If a bucket attains the maximal `avg_profit_margin` and no bucket
earlier in the fixed interval order attains it too, that bucket is the
recommendation — so when several buckets tie for the maximum, `idxmax`
returns the one appearing first in the interval order (0-10%, 10-20%,
20-30%, 30-40%, 40%+, with the "nan" placeholder sorting last), because
the aggregate iterates its groups in exactly that sorted key order. -/
theorem tie_resolves_to_first_interval_order (rows : List NRow)
    (hkeys : ∀ r ∈ rows, r.discount_range ∈ allLabels)
    (b : String) (hb : b ∈ bucketLabels) (m : ℚ)
    (hbm : (mkAggRow rows b).avg_profit_margin = some m)
    (hmax : ∀ a ∈ perform_discount_analysis rows, ∀ v,
      a.avg_profit_margin = some v → v ≤ m)
    (hfirst : ∀ b' ∈ bucketLabels,
      (mkAggRow rows b').avg_profit_margin = some m →
      allLabels.indexOf b ≤ allLabels.indexOf b') :
    recommendedRange rows = some b := by
  have hnot : ∀ x ∈ bucketLabels, allLabels.indexOf x < allLabels.indexOf b →
      ∀ v, (mkAggRow rows x).avg_profit_margin = some v → v < m := by
    intro x hx hidx v hv
    refine lt_max_of_not_attaining rows m v x hmax hv fun hxm => ?_
    exact absurd (hfirst x hx hxm) (not_le.2 hidx)
  simp only [bucketLabels, List.mem_cons, List.not_mem_nil, or_false] at hb
  rcases hb with rfl | rfl | rfl | rfl | rfl
  · exact recommend_first_core rows hkeys _ m []
      ["10-20%", "20-30%", "30-40%", "40%+", "nan"] (by decide) hbm hmax
      (fun x hx => absurd hx (List.not_mem_nil x))
  · refine recommend_first_core rows hkeys _ m ["0-10%"]
      ["20-30%", "30-40%", "40%+", "nan"] (by decide) hbm hmax ?_
    intro x hx v hv
    simp only [List.mem_cons, List.not_mem_nil, or_false] at hx
    subst hx
    exact hnot _ (by decide) (by decide) v hv
  · refine recommend_first_core rows hkeys _ m ["0-10%", "10-20%"]
      ["30-40%", "40%+", "nan"] (by decide) hbm hmax ?_
    intro x hx v hv
    simp only [List.mem_cons, List.not_mem_nil, or_false] at hx
    rcases hx with rfl | rfl <;> exact hnot _ (by decide) (by decide) v hv
  · refine recommend_first_core rows hkeys _ m ["0-10%", "10-20%", "20-30%"]
      ["40%+", "nan"] (by decide) hbm hmax ?_
    intro x hx v hv
    simp only [List.mem_cons, List.not_mem_nil, or_false] at hx
    rcases hx with rfl | rfl | rfl <;> exact hnot _ (by decide) (by decide) v hv
  · refine recommend_first_core rows hkeys _ m
      ["0-10%", "10-20%", "20-30%", "30-40%"] ["nan"] (by decide) hbm hmax ?_
    intro x hx v hv
    simp only [List.mem_cons, List.not_mem_nil, or_false] at hx
    rcases hx with rfl | rfl | rfl | rfl <;>
      exact hnot _ (by decide) (by decide) v hv

/-- Witness for C7: both buckets of `tieRows` average 10; the
recommendation is `0-10%`, the earlier bucket in interval order, even
though the `10-20%` row comes first in the input. -/
theorem tie_resolves_to_first_interval_order_witness :
    recommendedRange tieRows = some "0-10%" := by
  have hv1 : (mkAggRow tieRows "0-10%").avg_profit_margin = some 10 := by
    rw [mkAggRow_eval tieRows "0-10%" [⟨"0-10%", 1, 1, some 10⟩] 1 1 [10]
      (by decide) (by norm_num) (by norm_num) (by decide) (by simp) (by norm_num)]
    norm_num
  have hv2 : (mkAggRow tieRows "10-20%").avg_profit_margin = some 10 := by
    rw [mkAggRow_eval tieRows "10-20%" [⟨"10-20%", 1, 1, some 10⟩] 1 1 [10]
      (by decide) (by norm_num) (by norm_num) (by decide) (by simp) (by norm_num)]
    norm_num
  have hana : perform_discount_analysis tieRows =
      [mkAggRow tieRows "0-10%", mkAggRow tieRows "10-20%"] := by
    unfold perform_discount_analysis
    rw [sortedKeys_eval tieRows ["0-10%", "10-20%"] (by decide) (by decide)]
    rfl
  refine tie_resolves_to_first_interval_order tieRows (by decide) "0-10%"
    (by decide) 10 hv1 ?_ ?_
  · intro a ha v hv
    rw [hana] at ha
    rcases List.mem_cons.1 ha with rfl | ha
    · rw [hv1] at hv
      rw [← Option.some.inj hv]
    · rw [List.mem_singleton] at ha
      subst ha
      rw [hv2] at hv
      rw [← Option.some.inj hv]
  · intro b' hb' hm
    simp only [bucketLabels, List.mem_cons, List.not_mem_nil, or_false] at hb'
    rcases hb' with rfl | rfl | rfl | rfl | rfl
    · exact le_rfl
    · decide
    · rw [mkAggRow_avg_none (by decide)] at hm
      cases hm
    · rw [mkAggRow_avg_none (by decide)] at hm
      cases hm
    · rw [mkAggRow_avg_none (by decide)] at hm
      cases hm

end OptimalDiscount
